import Mathlib

/-!
Shallow embedding of `colossalai/inference/engine/microbatch_manager.py`.

Tensors are modelled as row-major lists of rows of integers
(`torch.cat` along the last dimension becomes row-wise append).
Python exceptions become `Except Err`; each `Err` constructor names the
kind of Python exception raised at that failure site.
-/

/-- The `Status` enum of the source (lines 11-15). -/
inductive Status where
  | PREFILL
  | GENERATE
  | DONE
  | COOLDOWN
deriving DecidableEq, Repr

/-- A 2-D tensor, row-major: a list of rows, each row a list of token ids
(or 0/1 mask entries). -/
abbrev Tensor := List (List Int)

/-- Kinds of Python exceptions the embedded code can raise. -/
inductive Err where
  | typeError
  | keyError
  | assertionError
  | attributeError
deriving DecidableEq, Repr

/-- The `inputs_dict` argument: a dict whose relevant keys are
`input_ids` and `attention_mask`; `none` models a missing key
(or a key bound to Python `None`). -/
structure InputsDict where
  input_ids : Option Tensor
  attention_mask : Option Tensor
deriving DecidableEq, Repr

/-- Modelled from the spec: `BatchInferState` (from `..kv_cache`, not part of
the sources given) is an opaque batch context; the spec requires only that it
exposes a queryable maximum recorded per-row sequence length, so we keep just
the per-row `seq_len` vector that the Body slot's `cur_length` reads. -/
structure BatchInferState where
  seq_len : List Nat
deriving DecidableEq, Repr

/-- The derived `state` property shared by both slot variants
(source lines 46-59): DONE when the current length equals the target,
COOLDOWN when one short of it, otherwise GENERATE. -/
def stateOf (cur target : Nat) : Status :=
  if cur = target then Status.DONE
  else if cur = target - 1 then Status.COOLDOWN
  else Status.GENERATE

/-- `HeadMicroBatchDescription` (source lines 69-121): fields set by
`__init__` (lines 29-40 and 88-93).  `infer_state` holds the external batch
context produced by `BatchInferState.init_from_batch`, which is passed in as
a parameter because that factory lives outside the given sources. -/
structure HeadSlot where
  mb_length : Nat
  target_length : Nat
  infer_state : BatchInferState
  input_ids : Tensor
  attn_mask : Tensor
  new_tokens : Option Tensor
deriving DecidableEq, Repr

/-- `BodyMicroBatchDescription` (source lines 124-147): only the base-class
fields. -/
structure BodySlot where
  mb_length : Nat
  target_length : Nat
  infer_state : BatchInferState
deriving DecidableEq, Repr

/-- `_update_newtokens` (source lines 101-105): first token initializes
`new_tokens`, later tokens are concatenated along the last dimension
(row-wise append; `torch.cat` requires equal row counts). -/
def catNewTokens : Option Tensor → Tensor → Tensor
  | none, t => t
  | some nt, t => List.zipWith (· ++ ·) nt t

/-- `_update_attnmask` (source lines 107-110): append one `1` entry to every
row of the attention mask. -/
def updateAttnMask (mask : Tensor) : Tensor :=
  mask.map (fun r => r ++ [1])

/-- `HeadMicroBatchDescription.cur_length` (source lines 112-121):
`mb_length` when no token was generated yet, otherwise `mb_length` plus the
number of tokens in row 0 of `new_tokens`. -/
def HeadSlot.cur_length (h : HeadSlot) : Nat :=
  match h.new_tokens with
  | none => h.mb_length
  | some nt => h.mb_length + (nt.headD []).length

/-- The derived `state` of a Head slot. -/
def HeadSlot.state (h : HeadSlot) : Status :=
  stateOf h.cur_length h.target_length

/-- `HeadMicroBatchDescription.update` (source lines 95-99): when a token is
present it is appended first, and the attention mask grows only if the state
recomputed after the append is not DONE. -/
def HeadSlot.update (h : HeadSlot) (new_token : Option Tensor) : HeadSlot :=
  match new_token with
  | none => h
  | some t =>
    let s1 : HeadSlot := { h with new_tokens := some (catNewTokens h.new_tokens t) }
    if s1.state = Status.DONE then s1
    else { s1 with attn_mask := updateAttnMask s1.attn_mask }

/-- `BodyMicroBatchDescription.cur_length` (source lines 141-147):
the maximum recorded per-row sequence length of the external batch context
(`self.infer_state.seq_len.max().item()`). -/
def BodySlot.cur_length (b : BodySlot) : Nat :=
  b.infer_state.seq_len.foldr max 0

/-- The derived `state` of a Body slot. -/
def BodySlot.state (b : BodySlot) : Status :=
  stateOf b.cur_length b.target_length

/-- A slot stored in the manager's buffer: Head for stage 0, Body otherwise. -/
inductive Slot where
  | head (h : HeadSlot)
  | body (b : BodySlot)
deriving DecidableEq, Repr

/-- `update` dispatched on the slot variant: the base-class `update`
(source lines 43-44) is `pass`, so a Body slot is unchanged. -/
def Slot.update (s : Slot) (new_token : Option Tensor) : Slot :=
  match s with
  | .head h => .head (h.update new_token)
  | .body b => .body b

/-- The derived `state` of a stored slot. -/
def Slot.state : Slot → Status
  | .head h => h.state
  | .body b => b.state

/-- `HeadMicroBatchDescription.__init__` (source lines 81-93).  The base
`__init__` runs first and subscripts `inputs_dict["input_ids"]`
(TypeError on a `None` dict, KeyError on a missing key); afterwards the Head
asserts that `attention_mask` is present (AssertionError otherwise).
`ist` is the external factory's `BatchInferState` result. -/
def HeadMicroBatchDescription.init (inputs : Option InputsDict)
    (max_output_len : Nat) (ist : BatchInferState) : Except Err HeadSlot :=
  match inputs with
  | none => Except.error Err.typeError
  | some d =>
    match d.input_ids with
    | none => Except.error Err.keyError
    | some ids =>
      let mbl := (ids.headD []).length
      match d.attention_mask with
      | none => Except.error Err.assertionError
      | some mask =>
        Except.ok
          { mb_length := mbl
            target_length := mbl + max_output_len
            infer_state := ist
            input_ids := ids
            attn_mask := mask
            new_tokens := none }

/-- `BodyMicroBatchDescription.__init__` (source lines 132-139): it only runs
the base `__init__`, which unconditionally subscripts
`inputs_dict["input_ids"]` — so a `None` input raises TypeError even though
the class docstring says the input "will always be None". -/
def BodyMicroBatchDescription.init (inputs : Option InputsDict)
    (max_output_len : Nat) (ist : BatchInferState) : Except Err BodySlot :=
  match inputs with
  | none => Except.error Err.typeError
  | some d =>
    match d.input_ids with
    | none => Except.error Err.keyError
    | some ids =>
      let mbl := (ids.headD []).length
      Except.ok
        { mb_length := mbl
          target_length := mbl + max_output_len
          infer_state := ist }

/-- Python dict lookup (`dict.get`): the buffer is an insertion-ordered
association list, as CPython dicts are. -/
def dictGet (m : List (Nat × Slot)) (k : Nat) : Option Slot :=
  match m with
  | [] => none
  | p :: rest => if p.1 = k then some p.2 else dictGet rest k

/-- Python dict assignment: overwrite in place (keeping insertion order) when
the key exists, otherwise append. -/
def dictSet (m : List (Nat × Slot)) (k : Nat) (v : Slot) : List (Nat × Slot) :=
  match m with
  | [] => [(k, v)]
  | p :: rest => if p.1 = k then (k, v) :: rest else p :: dictSet rest k v

/-- `MicroBatchManager` (source lines 150-178).  `cache_manager_list` is an
external resource list (only handed to the external factory / `free_all`),
so it is not carried here. -/
structure MicroBatchManager where
  stage : Nat
  micro_batch_size : Nat
  buffer_size : Nat
  max_input_len : Nat
  max_output_len : Nat
  mb_description_buffer : List (Nat × Slot)
  idx : Nat
deriving DecidableEq, Repr

/-- `cur_description` (source lines 230-232): the slot at the cursor, if any. -/
def MicroBatchManager.cur_description (m : MicroBatchManager) : Option Slot :=
  dictGet m.mb_description_buffer m.idx

/-- `cur_state` (source lines 240-248): PREFILL when no slot exists at the
cursor, otherwise the slot's derived state. -/
def MicroBatchManager.cur_state (m : MicroBatchManager) : Status :=
  match m.cur_description with
  | none => Status.PREFILL
  | some s => s.state

/-- `add_description` (source lines 180-188): construct a Head slot when
`stage == 0`, a Body slot otherwise, and store it at the cursor position
(a plain dict assignment — any slot already there is overwritten).
`ist` is the external factory's `BatchInferState` result. -/
def MicroBatchManager.add_description (m : MicroBatchManager)
    (inputs : Option InputsDict) (ist : BatchInferState) :
    Except Err MicroBatchManager :=
  if m.stage = 0 then
    (HeadMicroBatchDescription.init inputs m.max_output_len ist).map fun h =>
      { m with mb_description_buffer := dictSet m.mb_description_buffer m.idx (Slot.head h) }
  else
    (BodyMicroBatchDescription.init inputs m.max_output_len ist).map fun b =>
      { m with mb_description_buffer := dictSet m.mb_description_buffer m.idx (Slot.body b) }

/-- `step` (source lines 190-203): `self.cur_description.update(new_token)`
raises AttributeError when `cur_description` is `None`; otherwise the slot at
the cursor is updated in place and `cur_state` is returned. -/
def MicroBatchManager.step (m : MicroBatchManager) (new_token : Option Tensor) :
    Except Err (Status × MicroBatchManager) :=
  match m.cur_description with
  | none => Except.error Err.attributeError
  | some s =>
    let s1 := s.update new_token
    let m1 : MicroBatchManager :=
      { m with mb_description_buffer := dictSet m.mb_description_buffer m.idx s1 }
    Except.ok (m1.cur_state, m1)

/-- The loop body of `export_new_tokens` over the buffer's values in
insertion order: `i.new_tokens.tolist()` raises AttributeError on a Body slot
(no `new_tokens` attribute) and on a Head slot whose `new_tokens` is still
`None`; `extend` appends the slot's rows to the (flat) accumulator. -/
def exportTokensList : List (Nat × Slot) → Except Err (List (List Int))
  | [] => Except.ok []
  | p :: rest =>
    match p.2 with
    | .body _ => Except.error Err.attributeError
    | .head h =>
      match h.new_tokens with
      | none => Except.error Err.attributeError
      | some nt => (exportTokensList rest).map (fun l => nt ++ l)

/-- `export_new_tokens` (source lines 205-209). -/
def MicroBatchManager.export_new_tokens (m : MicroBatchManager) :
    Except Err (List (List Int)) :=
  exportTokensList m.mb_description_buffer

/-- `is_micro_batch_done` (source lines 211-217): false on an empty buffer,
otherwise true iff every stored slot's state is DONE. -/
def MicroBatchManager.is_micro_batch_done (m : MicroBatchManager) : Bool :=
  if m.mb_description_buffer.length = 0 then false
  else m.mb_description_buffer.all fun p => p.2.state == Status.DONE

/-- `next` (source lines 224-225): rotate the cursor. -/
def MicroBatchManager.next (m : MicroBatchManager) : MicroBatchManager :=
  { m with idx := (m.idx + 1) % m.buffer_size }

/-- `clear` (source lines 219-222): empty the buffer (the cache `free_all`
calls act only on the external cache handles). -/
def MicroBatchManager.clear (m : MicroBatchManager) : MicroBatchManager :=
  { m with mb_description_buffer := [] }

example : stateOf 3 5 = Status.GENERATE := by decide
example : stateOf 4 5 = Status.COOLDOWN := by decide
example : stateOf 5 5 = Status.DONE := by decide

/-! ## Buffer lemmas -/

/-- Looking up a key right after storing it yields the stored slot. -/
theorem dictGet_dictSet_self (m : List (Nat × Slot)) (k : Nat) (v : Slot) :
    dictGet (dictSet m k v) k = some v := by
  induction m with
  | nil => simp [dictGet, dictSet]
  | cons p rest ih =>
    by_cases h : p.1 = k
    · simp [dictSet, dictGet, h]
    · simp [dictSet, dictGet, h, ih]

/-! ## Claim C10 -/

/-- Claim C10: calling `update` on a Head slot with an absent token leaves the
slot entirely unchanged — `new_tokens` (the generated tokens), the attention
mask, `cur_length` and the derived state are all identical. -/
theorem C10_update_none_frame (h : HeadSlot) :
    h.update none = h ∧
    (h.update none).new_tokens = h.new_tokens ∧
    (h.update none).attn_mask = h.attn_mask ∧
    (h.update none).cur_length = h.cur_length ∧
    (h.update none).state = h.state :=
  ⟨rfl, rfl, rfl, rfl, rfl⟩

/-! ## Claim C9 -/

/-- Claim C9: the spec (and the Body class docstring, which says the input
dict "will always be None") promise that Body-slot construction needs no
per-call input data; the code nevertheless subscripts
`inputs_dict["input_ids"]` in the shared base constructor, so constructing a
Body slot with an absent input record raises a TypeError. -/
theorem C9_body_init_none_fails :
    BodyMicroBatchDescription.init none 4 ⟨[3]⟩ = Except.error Err.typeError :=
  rfl

/-! ## Claim C7 -/

/-- Claim C7: `is_micro_batch_done` is false on an empty buffer, false when
some stored slot's state is not DONE, and true exactly when the buffer is
non-empty and every stored slot's state is DONE. -/
theorem C7_is_micro_batch_done (m : MicroBatchManager) :
    (m.mb_description_buffer = [] → m.is_micro_batch_done = false) ∧
    (∀ p ∈ m.mb_description_buffer, p.2.state ≠ Status.DONE →
      m.is_micro_batch_done = false) ∧
    (m.is_micro_batch_done = true ↔
      m.mb_description_buffer ≠ [] ∧
        ∀ p ∈ m.mb_description_buffer, p.2.state = Status.DONE) := by
  have hmain : m.is_micro_batch_done = true ↔
      m.mb_description_buffer ≠ [] ∧
        ∀ p ∈ m.mb_description_buffer, p.2.state = Status.DONE := by
    unfold MicroBatchManager.is_micro_batch_done
    by_cases hemp : m.mb_description_buffer = []
    · simp [hemp]
    · simp [hemp, List.length_eq_zero, List.all_eq_true]
  refine ⟨fun hemp => ?_, fun p hp hne => ?_, hmain⟩
  · cases hdone : m.is_micro_batch_done with
    | false => rfl
    | true => exact absurd hemp (hmain.mp hdone).1
  · cases hdone : m.is_micro_batch_done with
    | false => rfl
    | true => exact absurd ((hmain.mp hdone).2 p hp) hne

def bC7 : BodySlot := { mb_length := 1, target_length := 1, infer_state := ⟨[1]⟩ }

def mC7e : MicroBatchManager := ⟨1, 1, 2, 5, 0, [], 0⟩

def mC7d : MicroBatchManager := ⟨1, 1, 2, 5, 0, [(0, Slot.body bC7)], 0⟩

/-- Witness for C7: an empty ring is not done; a ring whose only slot is DONE
is done. -/
theorem C7_is_micro_batch_done_witness :
    mC7e.is_micro_batch_done = false ∧ mC7d.is_micro_batch_done = true :=
  ⟨(C7_is_micro_batch_done mC7e).1 rfl,
   (C7_is_micro_batch_done mC7d).2.2.mpr ⟨by decide, by decide⟩⟩

/-! ## Claim C2 -/

/-- Claim C2: `step` fails (the `None.update` attribute access raises) when no
slot exists at the cursor; when a slot exists, `step` delegates to that slot's
`update` and returns the updated slot's derived state together with the
manager now holding the updated slot at the cursor. -/
theorem C2_step_behavior (m : MicroBatchManager) (tok : Option Tensor) :
    (m.cur_description = none → m.step tok = Except.error Err.attributeError) ∧
    (∀ s, m.cur_description = some s →
      m.step tok = Except.ok ((s.update tok).state,
        { m with mb_description_buffer :=
            dictSet m.mb_description_buffer m.idx (s.update tok) })) := by
  constructor
  · intro hnone
    unfold MicroBatchManager.step
    rw [hnone]
  · intro s hs
    have hget := dictGet_dictSet_self m.mb_description_buffer m.idx (s.update tok)
    unfold MicroBatchManager.step
    rw [hs]
    unfold MicroBatchManager.cur_state MicroBatchManager.cur_description
    simp [hget]

def hC2 : HeadSlot :=
  { mb_length := 1, target_length := 3, infer_state := ⟨[]⟩,
    input_ids := [[7]], attn_mask := [[1]], new_tokens := none }

def mC2e : MicroBatchManager := ⟨0, 1, 2, 5, 2, [], 0⟩

def mC2o : MicroBatchManager := ⟨0, 1, 2, 5, 2, [(0, Slot.head hC2)], 0⟩

/-- Witness for C2: stepping an empty ring fails; stepping a ring with a slot
at the cursor returns that slot's post-update state. -/
theorem C2_step_behavior_witness :
    mC2e.step (some [[5]]) = Except.error Err.attributeError ∧
    mC2o.step (some [[5]]) = Except.ok (((Slot.head hC2).update (some [[5]])).state,
      { mC2o with mb_description_buffer := dictSet mC2o.mb_description_buffer mC2o.idx ((Slot.head hC2).update (some [[5]])) }) :=
  ⟨(C2_step_behavior mC2e (some [[5]])).1 rfl,
   (C2_step_behavior mC2o (some [[5]])).2 (Slot.head hC2) rfl⟩

/-! ## Claim C3 -/

def mC3 : MicroBatchManager := ⟨1, 1, 2, 5, 2, [], 0⟩

/-- Counterexample to claim C3: on a Body-role ring (stage 1) whose buffer is
empty, `export_new_tokens` does not fail at all — it returns the empty list —
so "for every Body-role ring the call fails" is false. -/
theorem C3_counterexample :
    mC3.stage ≠ 0 ∧ mC3.export_new_tokens = Except.ok [] :=
  ⟨by decide, rfl⟩

/-- Claim C3 amended: on a ring whose buffer holds only Body slots,
`export_new_tokens` fails (AttributeError: Body slots have no `new_tokens`)
whenever at least one slot is present; on an empty buffer it returns the
empty list without failing. -/
theorem C3_amended (m : MicroBatchManager)
    (hall : ∀ p ∈ m.mb_description_buffer, ∃ b, p.2 = Slot.body b) :
    (m.mb_description_buffer ≠ [] →
      m.export_new_tokens = Except.error Err.attributeError) ∧
    (m.mb_description_buffer = [] → m.export_new_tokens = Except.ok []) := by
  constructor
  · intro hne
    cases hbuf : m.mb_description_buffer with
    | nil => exact absurd hbuf hne
    | cons p rest =>
      obtain ⟨b, hb⟩ := hall p (by rw [hbuf]; exact List.mem_cons_self p rest)
      simp [MicroBatchManager.export_new_tokens, hbuf, exportTokensList, hb]
  · intro he
    simp [MicroBatchManager.export_new_tokens, he, exportTokensList]

def bC3 : BodySlot := { mb_length := 1, target_length := 3, infer_state := ⟨[1]⟩ }

def mC3b : MicroBatchManager := ⟨1, 1, 2, 5, 2, [(0, Slot.body bC3)], 0⟩

/-- Witness for the amended C3: a Body ring with one slot fails to export. -/
theorem C3_amended_witness :
    mC3b.export_new_tokens = Except.error Err.attributeError :=
  (C3_amended mC3b (fun p hp => by
    have : p = (0, Slot.body bC3) := by
      simpa [mC3b] using hp
    exact ⟨bC3, by rw [this]⟩)).1 (by decide)

/-! ## Claim C1 -/

def hOldC1 : HeadSlot :=
  { mb_length := 2, target_length := 4, infer_state := ⟨[]⟩,
    input_ids := [[1, 2]], attn_mask := [[1, 1]], new_tokens := some [[9]] }

def dC1 : InputsDict := ⟨some [[7, 8]], some [[1, 1]]⟩

def mOccC1 : MicroBatchManager := ⟨0, 1, 2, 5, 2, [(0, Slot.head hOldC1)], 0⟩

def hNewC1 : HeadSlot :=
  { mb_length := 2, target_length := 4, infer_state := ⟨[]⟩,
    input_ids := [[7, 8]], attn_mask := [[1, 1]], new_tokens := none }

/-- Counterexample to claim C1: on a ring whose cursor position is occupied by
an unfinished slot (it has already generated a token and the ring was not
cleared), `add_description` does not fail at all — it succeeds and silently
replaces the occupied slot with a freshly constructed one. -/
theorem C1_counterexample :
    mOccC1.cur_description = some (Slot.head hOldC1) ∧
    mOccC1.add_description (some dC1) ⟨[]⟩ =
      Except.ok { mOccC1 with mb_description_buffer := [(0, Slot.head hNewC1)] } ∧
    hNewC1 ≠ hOldC1 :=
  ⟨rfl, rfl, by decide⟩

/-- Claim C1 amended: on EVERY ring (Head or Body role) `add_description`
performs no occupancy check.  Called while a slot already exists at the
cursor position, its outcome is decided solely by constructing the new slot
from the inputs — exactly the outcome it would have on the same ring cleared
(so occupancy never causes a failure, and in particular no SlotOccupied
error exists) — and whenever construction succeeds the existing slot is
silently overwritten: the cursor position now holds the newly constructed
slot, the very slot a cleared ring would have stored. -/
theorem C1_amended (m : MicroBatchManager) (inputs : Option InputsDict)
    (ist : BatchInferState) (_hocc : m.cur_description ≠ none) :
    (∀ e : Err, m.add_description inputs ist = Except.error e ↔
      m.clear.add_description inputs ist = Except.error e) ∧
    (∀ m' : MicroBatchManager, m.add_description inputs ist = Except.ok m' →
      ∃ s : Slot,
        m'.cur_description = some s ∧
        m' = { m with mb_description_buffer := dictSet m.mb_description_buffer m.idx s } ∧
        m.clear.add_description inputs ist =
          Except.ok { m with mb_description_buffer := [(m.idx, s)] }) := by
  by_cases hstage : m.stage = 0
  · cases hinit : HeadMicroBatchDescription.init inputs m.max_output_len ist with
    | error e0 =>
      constructor
      · intro e
        simp [MicroBatchManager.add_description, MicroBatchManager.clear,
          hstage, hinit, Except.map]
      · intro m' hm'
        simp [MicroBatchManager.add_description, hstage, hinit, Except.map] at hm'
    | ok h =>
      constructor
      · intro e
        simp [MicroBatchManager.add_description, MicroBatchManager.clear,
          hstage, hinit, Except.map]
      · intro m' hm'
        simp [MicroBatchManager.add_description, hstage, hinit, Except.map] at hm'
        subst hm'
        refine ⟨Slot.head h, ?_, ?_, ?_⟩
        · simp [MicroBatchManager.cur_description, dictGet_dictSet_self]
        · rw [hstage]
        · simp [MicroBatchManager.add_description, MicroBatchManager.clear,
            hstage, hinit, Except.map, dictSet]
  · cases hinit : BodyMicroBatchDescription.init inputs m.max_output_len ist with
    | error e0 =>
      constructor
      · intro e
        simp [MicroBatchManager.add_description, MicroBatchManager.clear,
          hstage, hinit, Except.map]
      · intro m' hm'
        simp [MicroBatchManager.add_description, hstage, hinit, Except.map] at hm'
    | ok b =>
      constructor
      · intro e
        simp [MicroBatchManager.add_description, MicroBatchManager.clear,
          hstage, hinit, Except.map]
      · intro m' hm'
        simp [MicroBatchManager.add_description, hstage, hinit, Except.map] at hm'
        subst hm'
        refine ⟨Slot.body b, ?_, rfl, ?_⟩
        · simp [MicroBatchManager.cur_description, dictGet_dictSet_self]
        · simp [MicroBatchManager.add_description, MicroBatchManager.clear,
            hstage, hinit, Except.map, dictSet]

def mAfterC1 : MicroBatchManager :=
  { mOccC1 with mb_description_buffer := [(0, Slot.head hNewC1)] }

/-- Witness for the amended C1: on the concrete occupied ring the add
succeeds, the cursor position holds the replacement slot, and the cleared
ring stores that same slot. -/
theorem C1_amended_witness :
    ∃ s : Slot,
      mAfterC1.cur_description = some s ∧
      mAfterC1 = { mOccC1 with mb_description_buffer := dictSet mOccC1.mb_description_buffer mOccC1.idx s } ∧
      mOccC1.clear.add_description (some dC1) ⟨[]⟩ =
        Except.ok { mOccC1 with mb_description_buffer := [(mOccC1.idx, s)] } :=
  (C1_amended mOccC1 (some dC1) ⟨[]⟩ (by decide)).2 mAfterC1 rfl

/-! ## Head-slot update runs (claims C4, C5, C6) -/

/-- One generated-token column: a non-empty tensor whose row 0 holds exactly
one token, as produced once per step. -/
def goodTok (t : Tensor) : Prop := t ≠ [] ∧ (t.headD []).length = 1

instance (t : Tensor) : Decidable (goodTok t) := by
  unfold goodTok; infer_instance

/-- Row 0 of `new_tokens` holds `j` generated tokens, with `new_tokens`
still absent exactly when `j = 0`. -/
def tokensLen (h : HeadSlot) (j : Nat) : Prop :=
  (h.new_tokens = none ∧ j = 0) ∨
  (∃ r0 rest, h.new_tokens = some (r0 :: rest) ∧ r0.length = j)

/-- Apply `update` once per token of `ts`, in order. -/
def runUpdates (h : HeadSlot) : List Tensor → HeadSlot
  | [] => h
  | t :: ts => runUpdates (h.update (some t)) ts

/-- The state observed after each successive `update`. -/
def statesAfter (h : HeadSlot) : List Tensor → List Status
  | [] => []
  | t :: ts => (h.update (some t)).state :: statesAfter (h.update (some t)) ts

theorem state_eq_stateOf (h : HeadSlot) :
    h.state = stateOf h.cur_length h.target_length := rfl

theorem cur_length_of_tokensLen (h : HeadSlot) (j : Nat) (hj : tokensLen h j) :
    h.cur_length = h.mb_length + j := by
  rcases hj with ⟨hn, rfl⟩ | ⟨r0, rest, hsome, hlen⟩
  · simp [HeadSlot.cur_length, hn]
  · simp [HeadSlot.cur_length, hsome, hlen]

theorem update_some_fields (h : HeadSlot) (t : Tensor) :
    (h.update (some t)).mb_length = h.mb_length ∧
    (h.update (some t)).target_length = h.target_length ∧
    (h.update (some t)).new_tokens = some (catNewTokens h.new_tokens t) := by
  simp only [HeadSlot.update]
  split <;> exact ⟨rfl, rfl, rfl⟩

theorem tokensLen_update (h : HeadSlot) (j : Nat) (t : Tensor)
    (hj : tokensLen h j) (ht : goodTok t) :
    tokensLen (h.update (some t)) (j + 1) := by
  obtain ⟨-, -, hnt⟩ := update_some_fields h t
  obtain ⟨hne, h1⟩ := ht
  cases t with
  | nil => exact absurd rfl hne
  | cons t0 trest =>
    have ht0 : t0.length = 1 := by simpa using h1
    rcases hj with ⟨hn, rfl⟩ | ⟨r0, rest, hsome, hlen⟩
    · refine Or.inr ⟨t0, trest, ?_, by omega⟩
      rw [hnt, hn]
      rfl
    · refine Or.inr ⟨r0 ++ t0, List.zipWith (· ++ ·) rest trest, ?_, by simp [hlen, ht0]⟩
      rw [hnt, hsome]
      rfl

theorem stateOf_done (L k : Nat) : stateOf (L + k) (L + k) = Status.DONE := by
  simp [stateOf]

theorem stateOf_cooldown (L k j : Nat) (h : j + 1 = k) :
    stateOf (L + j) (L + k) = Status.COOLDOWN := by
  unfold stateOf
  rw [if_neg (by omega), if_pos (by omega)]

theorem stateOf_generate (L k j : Nat) (h : j + 1 < k) :
    stateOf (L + j) (L + k) = Status.GENERATE := by
  unfold stateOf
  rw [if_neg (by omega), if_neg (by omega)]

theorem stateOf_ne_done (L k j : Nat) (h : j ≠ k) :
    stateOf (L + j) (L + k) ≠ Status.DONE := by
  unfold stateOf
  rw [if_neg (by omega)]
  split <;> simp

theorem update_mask_cond (h : HeadSlot) (t : Tensor) :
    ((h.update (some t)).state = Status.DONE →
      (h.update (some t)).attn_mask = h.attn_mask) ∧
    ((h.update (some t)).state ≠ Status.DONE →
      (h.update (some t)).attn_mask = updateAttnMask h.attn_mask) := by
  simp only [HeadSlot.update]
  split
  next hd => exact ⟨fun _ => rfl, fun hne => absurd hd hne⟩
  next hd => exact ⟨fun hdd => absurd hdd hd, fun _ => rfl⟩

theorem update_state_stateOf (h : HeadSlot) (t : Tensor) (j : Nat)
    (hj : tokensLen h j) (ht : goodTok t) :
    (h.update (some t)).state = stateOf (h.mb_length + (j + 1)) h.target_length := by
  have hj1 := tokensLen_update h j t hj ht
  have hcur := cur_length_of_tokensLen _ _ hj1
  obtain ⟨hmb, htg, -⟩ := update_some_fields h t
  rw [state_eq_stateOf, hcur, hmb, htg]

theorem runUpdates_fields (ts : List Tensor) :
    ∀ (h : HeadSlot) (j : Nat), tokensLen h j → (∀ t ∈ ts, goodTok t) →
      tokensLen (runUpdates h ts) (j + ts.length) ∧
      (runUpdates h ts).mb_length = h.mb_length ∧
      (runUpdates h ts).target_length = h.target_length := by
  induction ts with
  | nil =>
    intro h j hj _
    exact ⟨hj, rfl, rfl⟩
  | cons t ts ih =>
    intro h j hj hts
    have ht := hts t (List.mem_cons_self t ts)
    have hj1 := tokensLen_update h j t hj ht
    obtain ⟨hmb, htg, -⟩ := update_some_fields h t
    obtain ⟨ha, hb, hc⟩ := ih (h.update (some t)) (j + 1) hj1
      (fun x hx => hts x (List.mem_cons_of_mem t hx))
    refine ⟨?_, ?_, ?_⟩
    · show tokensLen (runUpdates (h.update (some t)) ts) (j + (t :: ts).length)
      have hrw : j + (t :: ts).length = (j + 1) + ts.length := by
        simp [List.length_cons]; omega
      rw [hrw]
      exact ha
    · show (runUpdates (h.update (some t)) ts).mb_length = h.mb_length
      rw [hb, hmb]
    · show (runUpdates (h.update (some t)) ts).target_length = h.target_length
      rw [hc, htg]

theorem fullStates_shape (ts : List Tensor) :
    ∀ (h : HeadSlot) (k j : Nat), tokensLen h j →
      h.target_length = h.mb_length + k →
      ts.length + j = k →
      (∀ t ∈ ts, goodTok t) →
      h.state :: statesAfter h ts =
        (if ts.length = 0 then [Status.DONE]
         else List.replicate (ts.length - 1) Status.GENERATE ++
           [Status.COOLDOWN, Status.DONE]) := by
  induction ts with
  | nil =>
    intro h k j hj htgt hlen _
    have hcur := cur_length_of_tokensLen h j hj
    have hjk : j = k := by simpa using hlen
    subst hjk
    have hstate : h.state = Status.DONE := by
      rw [state_eq_stateOf, hcur, htgt]
      exact stateOf_done _ _
    simp [statesAfter, hstate]
  | cons t ts ih =>
    intro h k j hj htgt hlen hts
    have hcur := cur_length_of_tokensLen h j hj
    have ht : goodTok t := hts t (List.mem_cons_self t ts)
    have hj1 : tokensLen (h.update (some t)) (j + 1) := tokensLen_update h j t hj ht
    obtain ⟨hmb, htg, -⟩ := update_some_fields h t
    have htgt1 : (h.update (some t)).target_length = (h.update (some t)).mb_length + k := by
      rw [hmb, htg, htgt]
    have hlen1 : ts.length + (j + 1) = k := by
      simp only [List.length_cons] at hlen; omega
    have hts1 : ∀ x ∈ ts, goodTok x := fun x hx => hts x (List.mem_cons_of_mem t hx)
    have hrec := ih (h.update (some t)) k (j + 1) hj1 htgt1 hlen1 hts1
    rw [show statesAfter h (t :: ts) =
      (h.update (some t)).state :: statesAfter (h.update (some t)) ts from rfl]
    rw [if_neg (by simp)]
    cases hn : ts.length with
    | zero =>
      have hjk : j + 1 = k := by omega
      have hstate : h.state = Status.COOLDOWN := by
        rw [state_eq_stateOf, hcur, htgt]
        exact stateOf_cooldown _ _ _ hjk
      rw [hn, if_pos rfl] at hrec
      rw [hrec, hstate]
      simp [hn]
    | succ n =>
      have hjk : j + 1 + 1 ≤ k := by omega
      have hstate : h.state = Status.GENERATE := by
        rw [state_eq_stateOf, hcur, htgt]
        exact stateOf_generate _ _ _ (by omega)
      rw [hn, if_neg (by simp)] at hrec
      rw [hrec, hstate]
      simp [hn, List.replicate_succ]

/-- Claim C4: a Head slot created with `new_tokens` absent and
`target_length = mb_length + k` (`k = max_output_len ≥ 1`) reaches DONE after
exactly `k` updates that each carry a one-token column, the observed state
sequence (after creation and after each update) is GENERATE repeated `k - 1`
times, then COOLDOWN once, then DONE, and for `k = 1` the state right after
creation is already COOLDOWN. -/
theorem C4_head_lifecycle (h : HeadSlot) (k : Nat) (ts : List Tensor)
    (hk : 1 ≤ k) (hnone : h.new_tokens = none)
    (htgt : h.target_length = h.mb_length + k)
    (hlen : ts.length = k) (hts : ∀ t ∈ ts, goodTok t) :
    (runUpdates h ts).state = Status.DONE ∧
    h.state :: statesAfter h ts =
      List.replicate (k - 1) Status.GENERATE ++ [Status.COOLDOWN, Status.DONE] ∧
    (k = 1 → h.state = Status.COOLDOWN) := by
  have hj0 : tokensLen h 0 := Or.inl ⟨hnone, rfl⟩
  obtain ⟨hfin, hmb, htg⟩ := runUpdates_fields ts h 0 hj0 hts
  have hcurfin := cur_length_of_tokensLen _ _ hfin
  refine ⟨?_, ?_, ?_⟩
  · rw [state_eq_stateOf, hcurfin, hmb, htg, htgt, hlen]
    simpa using stateOf_done h.mb_length k
  · have hshape := fullStates_shape ts h k 0 hj0 htgt (by omega) hts
    rw [hlen] at hshape
    rwa [if_neg (by omega)] at hshape
  · intro hk1
    have hcur0 := cur_length_of_tokensLen h 0 hj0
    rw [state_eq_stateOf, hcur0, htgt, hk1]
    exact stateOf_cooldown _ _ _ (by omega)

def hC4 : HeadSlot :=
  { mb_length := 1, target_length := 3, infer_state := ⟨[]⟩,
    input_ids := [[3]], attn_mask := [[1]], new_tokens := none }

/-- Witness for C4 with `k = 2`: two one-token updates drive the slot through
GENERATE, COOLDOWN, DONE. -/
theorem C4_head_lifecycle_witness :
    (runUpdates hC4 [[[5]], [[6]]]).state = Status.DONE ∧
    hC4.state :: statesAfter hC4 [[[5]], [[6]]] =
      List.replicate (2 - 1) Status.GENERATE ++ [Status.COOLDOWN, Status.DONE] ∧
    (2 = 1 → hC4.state = Status.COOLDOWN) :=
  C4_head_lifecycle hC4 2 [[[5]], [[6]]] (by omega) rfl rfl rfl (by decide)

theorem runUpdates_mask (ts : List Tensor) :
    ∀ (h : HeadSlot) (k j : Nat), tokensLen h j →
      h.target_length = h.mb_length + k →
      ts.length + j ≤ k →
      (∀ t ∈ ts, goodTok t) →
      (runUpdates h ts).attn_mask =
        h.attn_mask.map (fun r => r ++ List.replicate (min ts.length (k - 1 - j)) 1) := by
  induction ts with
  | nil =>
    intro h k j _ _ _ _
    show h.attn_mask = _
    simp
  | cons t ts ih =>
    intro h k j hj htgt hlen hts
    have ht := hts t (List.mem_cons_self t ts)
    have hj1 := tokensLen_update h j t hj ht
    obtain ⟨hmb, htg, -⟩ := update_some_fields h t
    have htgt1 : (h.update (some t)).target_length = (h.update (some t)).mb_length + k := by
      rw [hmb, htg, htgt]
    have hts1 : ∀ x ∈ ts, goodTok x := fun x hx => hts x (List.mem_cons_of_mem t hx)
    have hstate1 : (h.update (some t)).state = stateOf (h.mb_length + (j + 1)) h.target_length :=
      update_state_stateOf h t j hj ht
    have hlen' : ts.length + 1 + j ≤ k := by
      simpa [List.length_cons, Nat.add_right_comm] using hlen
    rw [show runUpdates h (t :: ts) = runUpdates (h.update (some t)) ts from rfl]
    by_cases hdone : j + 1 = k
    · have hts0 : ts = [] := by
        have : ts.length = 0 := by omega
        exact List.length_eq_zero.mp this
      subst hts0
      have hsd : (h.update (some t)).state = Status.DONE := by
        rw [hstate1, htgt, ← hdone]
        exact stateOf_done _ _
      have hmask := (update_mask_cond h t).1 hsd
      show (h.update (some t)).attn_mask = _
      rw [hmask]
      have hmin : min ([t] : List Tensor).length (k - 1 - j) = 0 := by
        simp only [List.length_singleton]
        omega
      rw [hmin]
      simp
    · have hlt : j + 1 < k := by omega
      have hsd : (h.update (some t)).state ≠ Status.DONE := by
        rw [hstate1, htgt]
        exact stateOf_ne_done _ _ _ (by omega)
      have hmask := (update_mask_cond h t).2 hsd
      have hlen1 : ts.length + (j + 1) ≤ k := by omega
      rw [ih (h.update (some t)) k (j + 1) hj1 htgt1 hlen1 hts1, hmask]
      unfold updateAttnMask
      rw [List.map_map]
      have hM : min (t :: ts).length (k - 1 - j) =
          min ts.length (k - 1 - (j + 1)) + 1 := by
        simp only [List.length_cons]
        omega
      rw [hM]
      congr 1
      funext r
      simp [List.append_assoc, List.replicate_succ]

/-- Claim C5: starting from a fresh Head slot (`new_tokens` absent,
`target_length = mb_length + k`), after `n ≤ k` one-token updates every row of
`attention_mask` has grown by `min n (k-1)` ones: by exactly `n` while the
slot has not yet reached DONE (`n < k`), and by only `k - 1` after the update
that reaches DONE (`n = k`) — that final update does not grow the mask. -/
theorem C5_mask_growth (h : HeadSlot) (k n : Nat) (ts : List Tensor)
    (hnone : h.new_tokens = none)
    (htgt : h.target_length = h.mb_length + k)
    (hlen : ts.length = n) (hnk : n ≤ k) (hts : ∀ t ∈ ts, goodTok t) :
    (n < k → (runUpdates h ts).attn_mask =
      h.attn_mask.map (fun r => r ++ List.replicate n 1)) ∧
    (n = k → (runUpdates h ts).attn_mask =
      h.attn_mask.map (fun r => r ++ List.replicate (k - 1) 1)) := by
  have hj0 : tokensLen h 0 := Or.inl ⟨hnone, rfl⟩
  have hbase := runUpdates_mask ts h k 0 hj0 htgt (by omega) hts
  rw [hlen] at hbase
  refine ⟨fun hlt => ?_, fun heq => ?_⟩
  · rw [hbase, show min n (k - 1 - 0) = n from by omega]
  · rw [hbase, show min n (k - 1 - 0) = k - 1 from by omega]

def hC5 : HeadSlot :=
  { mb_length := 1, target_length := 3, infer_state := ⟨[]⟩,
    input_ids := [[4]], attn_mask := [[1]], new_tokens := none }

/-- Witness for C5 with `k = 2`, `n = 1`: one accepted non-final update grows
each mask row by one. -/
theorem C5_mask_growth_witness :
    (1 < 2 → (runUpdates hC5 [[[9]]]).attn_mask =
      hC5.attn_mask.map (fun r => r ++ List.replicate 1 1)) ∧
    (1 = 2 → (runUpdates hC5 [[[9]]]).attn_mask =
      hC5.attn_mask.map (fun r => r ++ List.replicate (2 - 1) 1)) :=
  C5_mask_growth hC5 2 1 [[[9]]] rfl rfl rfl (by omega) (by decide)

/-! ## Claim C6 -/

def hC6 : HeadSlot :=
  { mb_length := 1, target_length := 2, infer_state := ⟨[]⟩,
    input_ids := [[3]], attn_mask := [[1]], new_tokens := none }

/-- Counterexample to claim C6: `update` never checks the state before
appending, so calling it with a token on a slot that is already DONE pushes
`cur_length` (here 3) strictly past `target_length` (here 2) — the claimed
"never exceeds target_length" fails for arbitrary update sequences. -/
theorem C6_counterexample :
    hC6.state = Status.COOLDOWN ∧
    (hC6.update (some [[5]])).state = Status.DONE ∧
    ((hC6.update (some [[5]])).update (some [[6]])).target_length = 2 ∧
    ((hC6.update (some [[5]])).update (some [[6]])).cur_length = 3 := by
  refine ⟨by decide, by decide, by decide, by decide⟩

theorem cur_length_update_some (h : HeadSlot) (t : Tensor) :
    (h.update (some t)).cur_length =
      h.mb_length + ((catNewTokens h.new_tokens t).headD []).length := by
  obtain ⟨hmb, -, hnt⟩ := update_some_fields h t
  unfold HeadSlot.cur_length
  rw [hnt, hmb]

theorem cur_length_update_succ (h : HeadSlot) (t : Tensor)
    (hgood : goodTok t)
    (hcompat : ∀ nt, h.new_tokens = some nt → nt.length = t.length) :
    (h.update (some t)).cur_length = h.cur_length + 1 := by
  rw [cur_length_update_some]
  obtain ⟨hne, h1⟩ := hgood
  cases t with
  | nil => exact absurd rfl hne
  | cons t0 trest =>
    have ht0 : t0.length = 1 := by simpa using h1
    cases hn : h.new_tokens with
    | none =>
      simp [HeadSlot.cur_length, hn, catNewTokens, ht0]
    | some nt =>
      have hntl := hcompat nt hn
      cases nt with
      | nil => simp at hntl
      | cons r0 rest =>
        simp [HeadSlot.cur_length, hn, catNewTokens, ht0]
        omega

/-- Claim C6 amended: under `torch.cat`-compatible tokens (matching row
counts), `cur_length` is monotonically non-decreasing across `update` calls
with any argument; but the bound `cur_length ≤ target_length` is only
preserved by an update whose token is a single token column applied while the
slot is not already DONE (nothing stops an update on a DONE slot from
exceeding the target). -/
theorem C6_amended (h : HeadSlot) (tok : Option Tensor)
    (hcompat : ∀ t nt, tok = some t → h.new_tokens = some nt → nt.length = t.length) :
    (h.update tok).target_length = h.target_length ∧
    h.cur_length ≤ (h.update tok).cur_length ∧
    ((tok = none ∨ ∃ t, tok = some t ∧ goodTok t ∧ h.state ≠ Status.DONE) →
      h.cur_length ≤ h.target_length →
      (h.update tok).cur_length ≤ h.target_length) := by
  cases tok with
  | none => exact ⟨rfl, Nat.le_refl _, fun _ hb => hb⟩
  | some t =>
    obtain ⟨-, htg, -⟩ := update_some_fields h t
    have hmono : h.cur_length ≤ (h.update (some t)).cur_length := by
      rw [cur_length_update_some]
      cases hn : h.new_tokens with
      | none => simp [HeadSlot.cur_length, hn]
      | some nt =>
        have hntl := hcompat t nt rfl hn
        cases nt with
        | nil =>
          cases t with
          | nil => simp [HeadSlot.cur_length, hn, catNewTokens]
          | cons t0 trest => simp at hntl
        | cons r0 rest =>
          cases t with
          | nil => simp at hntl
          | cons t0 trest =>
            simp [HeadSlot.cur_length, hn, catNewTokens]
    refine ⟨htg, hmono, fun hcond hb => ?_⟩
    rcases hcond with hnone | ⟨t2, ht2, hgood, hnd⟩
    · exact absurd hnone (by simp)
    · have ht2' : t2 = t := by injection ht2 with h2; exact h2.symm
      subst ht2'
      have hne : h.cur_length ≠ h.target_length := by
        intro he
        exact hnd (by rw [state_eq_stateOf, he]; simp [stateOf])
      have hsucc := cur_length_update_succ h t2 hgood
        (fun nt hn => hcompat t2 nt rfl hn)
      omega

/-- Witness for the amended C6: a COOLDOWN slot accepts a one-token update
without exceeding its target. -/
theorem C6_amended_witness :
    (hC6.update (some [[5]])).target_length = hC6.target_length ∧
    hC6.cur_length ≤ (hC6.update (some [[5]])).cur_length ∧
    ((some [[5]] = (none : Option Tensor) ∨
        ∃ t, (some [[5]] : Option Tensor) = some t ∧ goodTok t ∧ hC6.state ≠ Status.DONE) →
      hC6.cur_length ≤ hC6.target_length →
      (hC6.update (some [[5]])).cur_length ≤ hC6.target_length) :=
  C6_amended hC6 (some [[5]]) (fun t nt _ hnt => by simp [hC6] at hnt)

/-! ## Claim C8 -/

/-- The list of rows that `slot.new_tokens.tolist()` yields when the tokens
are present. -/
def slotRows : Slot → List (List Int)
  | .head h => h.new_tokens.getD []
  | .body _ => []

def hC8 : HeadSlot :=
  { mb_length := 1, target_length := 2, infer_state := ⟨[]⟩,
    input_ids := [[3], [4]], attn_mask := [[1], [1]], new_tokens := some [[7], [8]] }

def mC8 : MicroBatchManager := ⟨0, 2, 2, 5, 1, [(0, Slot.head hC8)], 0⟩

def hC8a : HeadSlot :=
  { mb_length := 1, target_length := 2, infer_state := ⟨[]⟩,
    input_ids := [[3]], attn_mask := [[1]], new_tokens := some [[7]] }

def hC8b : HeadSlot :=
  { mb_length := 1, target_length := 2, infer_state := ⟨[]⟩,
    input_ids := [[4]], attn_mask := [[1]], new_tokens := some [[8]] }

def mC8r : MicroBatchManager := ⟨0, 1, 2, 5, 1, [(1, Slot.head hC8b), (0, Slot.head hC8a)], 0⟩

/-- Counterexample to claim C8: the code's `extend` flattens one level, so the
result is not nested by ring position.  On `mC8`, a Head ring with exactly one
occupied position whose slot has two batch rows, the result has two top-level
entries — the outer index is the batch row, not the ring position.  Moreover
iteration follows dict insertion order, not position order: on `mC8r`, whose
position 1 was filled before position 0 (the cursor was rotated before the
first add), position 1's row comes out first. -/
theorem C8_counterexample :
    mC8.mb_description_buffer.length = 1 ∧
    mC8.export_new_tokens = Except.ok [[7], [8]] ∧
    ([[7], [8]] : List (List Int)).length = 2 ∧
    mC8r.export_new_tokens = Except.ok [[8], [7]] :=
  ⟨rfl, rfl, rfl, rfl⟩

theorem exportTokensList_ok (l : List (Nat × Slot))
    (hall : ∀ p ∈ l, ∃ h nt, p.2 = Slot.head h ∧ h.new_tokens = some nt) :
    exportTokensList l = Except.ok (l.map (fun p => slotRows p.2)).flatten := by
  induction l with
  | nil => rfl
  | cons p rest ih =>
    obtain ⟨hh, nt, hph, hnt⟩ := hall p (List.mem_cons_self p rest)
    have ihr := ih (fun x hx => hall x (List.mem_cons_of_mem p hx))
    obtain ⟨i, s⟩ := p
    simp only at hph
    subst hph
    show (match Slot.head hh with
      | .body _ => Except.error Err.attributeError
      | .head h =>
        match h.new_tokens with
        | none => Except.error Err.attributeError
        | some nt => (exportTokensList rest).map (fun l => nt ++ l)) = _
    simp only [hnt, ihr, Except.map, slotRows, List.map_cons, List.flatten]
    rfl

/-- Claim C8 amended: when every stored slot is a Head slot that has
generated at least one token, `export_new_tokens` succeeds and returns the
FLAT concatenation, over the slots in dict-insertion order (which coincides
with position order starting at 0 only when positions were filled in cursor
order), of each slot's per-row generated-token lists: the outer index ranges
over batch rows across slots, the inner over token ids in generation order. -/
theorem C8_amended (m : MicroBatchManager)
    (hall : ∀ p ∈ m.mb_description_buffer,
      ∃ h nt, p.2 = Slot.head h ∧ h.new_tokens = some nt) :
    m.export_new_tokens =
      Except.ok (m.mb_description_buffer.map (fun p => slotRows p.2)).flatten :=
  exportTokensList_ok m.mb_description_buffer hall

/-- Witness for the amended C8 on the concrete two-row ring. -/
theorem C8_amended_witness :
    mC8.export_new_tokens =
      Except.ok (mC8.mb_description_buffer.map (fun p => slotRows p.2)).flatten :=
  C8_amended mC8 (fun p hp => by
    have hp2 : p = (0, Slot.head hC8) := by simpa [mC8] using hp
    exact ⟨hC8, [[7], [8]], by rw [hp2], rfl⟩)
